import Mathlib

/-!
Verification of the backtest accounting engine of `src/backtest/engine.py`
(`BacktestEngine.run`, `_build_trades`, and the metric helpers) against its
natural-language specification.

Embedding conventions:
* Price bars are rows with a sortable integer `date` key and rational
  `open`/`close` values (floats are modelled as exact rationals; the
  unused `high`/`low`/`volume` columns, which no claim reads, are omitted).
* A pandas `DataFrame` of prices is a `PriceTable`: a row list, the frame
  index, and presence flags for the optional `date`/`open`/`close` columns
  (reading an absent column models pandas' `KeyError`).
* A pandas `Series` is an index (list of labels) plus a value list.
  Binary arithmetic on two series aligns by label exactly as pandas does:
  positionally when the two indexes are equal, otherwise over the sorted
  union of the labels, where labels present in only one operand yield NaN.
  NaN is not representable in `ℚ`; such values are modelled as `0`, which
  is sound here because `run` raises before any such value can be observed
  (the subsequent `strategy_returns.index = index` assignment fails on the
  length mismatch, see `setIndex`).
* Python exceptions become the `EngineError` sum; `run` returns
  `Except EngineError BacktestResult`.
* The metrics computed with `sqrt`/`**` live in `ℝ`; everything the claims
  evaluate pointwise stays in `ℚ` so that witnesses reduce by `rfl`.
-/

namespace Backtest

/-- One row of the price table: the sortable `date` key and the `open` /
`close` price columns (`open` is a Lean keyword, hence `open_`). -/
structure Bar where
  date : Int
  open_ : ℚ
  close : ℚ
deriving DecidableEq

/-- A pandas price `DataFrame`: its index, which of the optional columns
`date` / `open` / `close` are present, and the rows. -/
structure PriceTable where
  index : List Int
  hasDate : Bool
  hasOpen : Bool
  hasClose : Bool
  rows : List Bar
deriving DecidableEq

/-- A pandas `Series`: index labels plus values. -/
structure Series where
  index : List Int
  values : List ℚ
deriving DecidableEq

/-- The `Strategy` protocol: `generate_signals(prices) -> Series`. -/
abbrev Strategy := PriceTable → Series

/-- Python exceptions raised by `run`: `ValueError` (the engine's own
`raise`s and pandas' index-length mismatch) and pandas' `KeyError` for a
missing column. -/
inductive EngineError where
  | valueError (msg : String)
  | keyError (key : String)
deriving DecidableEq

/-- Trade status strings produced by `_build_trades`. -/
inductive TradeStatus where
  | OPEN
  | CLOSED
deriving DecidableEq

/-- One row of the trade ledger built by `_build_trades`. -/
structure Trade where
  entry_date : Int
  entry_price : ℚ
  exit_date : Int
  exit_price : ℚ
  return_pct : ℚ
  holding_period : Int
  status : TradeStatus
deriving DecidableEq

/-- `range(n)` as a list of integer labels. -/
def rangeList (n : Nat) : List Int :=
  (List.range n).map Int.ofNat

/-- Insert a bar into a list sorted by `date`, after any bar with an equal
date (the stable insertion step). -/
def insertByDate (b : Bar) : List Bar → List Bar
  | [] => [b]
  | c :: cs => if b.date < c.date then b :: c :: cs else c :: insertByDate b cs

/-- Stable sort of the rows by `date` ascending.  `sort_values("date")` in
the source delegates to pandas' default sort; on the spec's valid domain
(unique dates) every correct sort produces this same row order. -/
def insortRows (l : List Bar) : List Bar :=
  l.foldl (fun acc b => insertByDate b acc) []

/-- `prices.sort_values("date").reset_index(drop=True)`: rows reordered by
date ascending and the index replaced by the dense 0-based range. -/
def sortPrices (p : PriceTable) : PriceTable :=
  let r := insortRows p.rows
  { index := rangeList r.length
    hasDate := p.hasDate
    hasOpen := p.hasOpen
    hasClose := p.hasClose
    rows := r }

/-- `close.pct_change().fillna(0.0)` on the value list: first entry 0,
then `close[i]/close[i-1] - 1`. -/
def pctChangeFill : List ℚ → List ℚ
  | [] => []
  | x :: rest => 0 :: List.zipWith (fun prev cur => cur / prev - 1) (x :: rest) rest

/-- `signals.shift(1).fillna(0.0)`: values move down one slot, the first
becomes 0, the index is unchanged. -/
def shiftFill (s : Series) : Series :=
  { index := s.index
    values :=
      match s.values with
      | [] => []
      | v => 0 :: v.dropLast }

/-- Label lookup in a series (first occurrence).  Only used on the
alignment path for labels present in the index. -/
def lookupVal (s : Series) (lbl : Int) : ℚ :=
  match (s.index.zip s.values).find? (fun q => q.1 == lbl) with
  | some q => q.2
  | none => 0

/-- Sorted union of two label lists with multiplicity `max` on ties, i.e.
the outer-join index pandas aligns on; fuel-based so it reduces in the
kernel. -/
def unionMergeF : Nat → List Int → List Int → List Int
  | 0, l, r => l ++ r
  | _ + 1, [], r => r
  | _ + 1, a :: as, [] => a :: as
  | fuel + 1, a :: as, b :: bs =>
    if a < b then a :: unionMergeF fuel as (b :: bs)
    else if b < a then b :: unionMergeF fuel (a :: as) bs
    else a :: unionMergeF fuel as bs

/-- Sorted union of two label lists (enough fuel to consume both). -/
def unionMerge (l r : List Int) : List Int :=
  unionMergeF (l.length + r.length) l r

/-- Pandas `Series * Series`: positional when the indexes are equal,
otherwise aligned over the outer-join of the labels.  Labels missing from
one operand yield NaN in pandas, modelled as `0`; those values are
unobservable because `run` raises before using them (the result's length
then differs from `n`, so the later index assignment fails). -/
def mulAlign (a b : Series) : Series :=
  if a.index = b.index then
    { index := a.index, values := List.zipWith (· * ·) a.values b.values }
  else
    let u := unionMerge a.index b.index
    { index := u
      values := u.map fun lbl =>
        if lbl ∈ a.index ∧ lbl ∈ b.index then lookupVal a lbl * lookupVal b lbl else 0 }

/-- `series.index = ix`: pandas raises `ValueError` when the lengths
disagree, otherwise replaces the index in place. -/
def setIndex (s : Series) (ix : List Int) : Except EngineError Series :=
  if s.values.length = ix.length then .ok { index := ix, values := s.values }
  else .error (.valueError "Length mismatch")

/-- Running product with accumulator (`Series.cumprod`). -/
def cumprodGo (acc : ℚ) : List ℚ → List ℚ
  | [] => []
  | x :: xs => (acc * x) :: cumprodGo (acc * x) xs

/-- `series.cumprod()`. -/
def cumprodQ (l : List ℚ) : List ℚ :=
  cumprodGo 1 l

/-- Running maximum with accumulator (`Series.cummax`). -/
def cummaxGo (m : ℚ) : List ℚ → List ℚ
  | [] => []
  | y :: ys => max m y :: cummaxGo (max m y) ys

/-- `equity_curve.cummax()`. -/
def cummaxQ : List ℚ → List ℚ
  | [] => []
  | x :: xs => x :: cummaxGo x xs

/-- The drawdown series `equity_curve / cumulative_max - 1`. -/
def ddOf (e : List ℚ) : List ℚ :=
  List.zipWith (fun a m => a / m - 1) e (cummaxQ e)

/-- `series.min()` (0 on the empty list, which `run` never produces). -/
def listMin : List ℚ → ℚ
  | [] => 0
  | x :: xs => xs.foldl min x

/-- `_max_drawdown`: minimum of `equity_curve / cummax - 1`. -/
def max_drawdown (e : List ℚ) : ℚ :=
  listMin (ddOf e)

/-- `series.mean()`. -/
def meanQ (l : List ℚ) : ℚ :=
  l.sum / l.length

/-- Population variance (pandas `std(ddof=0)` squared): denominator `n`. -/
def popVar (l : List ℚ) : ℚ :=
  (l.map fun x => (x - meanQ l) ^ 2).sum / l.length

/-- `_annualized_volatility`: 0 on an empty series, else the population
standard deviation scaled by `sqrt(252)` (0 when the deviation is 0). -/
noncomputable def annualized_volatility (l : List ℚ) : ℝ :=
  if l.length = 0 then 0
  else if Real.sqrt (popVar l : ℝ) = 0 then 0
  else Real.sqrt (popVar l : ℝ) * Real.sqrt 252

/-- `_sharpe_ratio`: 0 on an empty series or zero volatility, else
`mean * 252 / volatility`. -/
noncomputable def sharpeOf (l : List ℚ) (vol : ℝ) : ℝ :=
  if l.length = 0 ∨ vol = 0 then 0 else (meanQ l : ℝ) * 252 / vol

/-- `_annualized_return`: `((1+r).prod) ** (252/n) - 1`, 0 when `n = 0`. -/
noncomputable def annualized_return (l : List ℚ) : ℝ :=
  if l.length = 0 then 0
  else (((l.map fun r => 1 + r).prod : ℚ) : ℝ) ^ ((252 : ℝ) / (l.length : ℝ)) - 1

/-- The reference price column choice of `_build_trades`: `open` when the
table has one, else `close`. -/
def priceOf (hasOpen : Bool) (b : Bar) : ℚ :=
  if hasOpen then b.open_ else b.close

/-- `position.diff().fillna(position)`: first entry kept, then successive
differences. -/
def pcList : List ℚ → List ℚ
  | [] => []
  | x :: xs => x :: List.zipWith (fun cur prev => cur - prev) xs (x :: xs)

/-- Select the `(date, price)` pairs of the bars whose position change
satisfies `test` (the `trade_frame.loc[...]` row filters). -/
def selectEvents (test : ℚ → Bool) (dates : List Int) (pxs : List ℚ) (pc : List ℚ) :
    List (Int × ℚ) :=
  (List.zip (List.zip dates pxs) pc).filterMap fun q => if test q.2 then some q.1 else none

/-- Assemble one ledger row from an entry `(date, price)` and an exit
`(date, price, is_open)`. -/
def mkTrade (en : Int × ℚ) (ex : Int × ℚ × Bool) : Trade :=
  { entry_date := en.1
    entry_price := en.2
    exit_date := ex.1
    exit_price := ex.2.1
    return_pct := ex.2.1 / en.2 - 1
    holding_period := ex.1 - en.1
    status := if ex.2.2 then .OPEN else .CLOSED }

/-- Insert a trade into a ledger sorted by `entry_date`, after equal
entry dates (stable insertion step). -/
def insertTrade (t : Trade) : List Trade → List Trade
  | [] => [t]
  | u :: us => if t.entry_date < u.entry_date then t :: u :: us else u :: insertTrade t us

/-- `trades.sort_values("entry_date")` (stable; entry dates are already
non-decreasing when the table is date-sorted). -/
def insortTrades (l : List Trade) : List Trade :=
  l.foldl (fun acc t => insertTrade t acc) []

/-- `_build_trades(positions, prices)`: position changes, entry/exit row
filters, positional pairing (`join` truncates extra exits), padding of
missing exits with the final bar's date/price marked `OPEN`, and the
derived `return_pct` / `holding_period` / `status` columns. -/
def build_trades (positions : Series) (p : PriceTable) : List Trade :=
  match positions.values with
  | [] => []
  | pv =>
    let dates := if p.hasDate then p.rows.map Bar.date else rangeList p.rows.length
    let pxs := p.rows.map (priceOf p.hasOpen)
    let pc := pcList pv
    let entries := selectEvents (fun x => decide (0 < x)) dates pxs pc
    let exits0 := (selectEvents (fun x => decide (x < 0)) dates pxs pc).map
      fun e => (e.1, e.2, false)
    let exitsP :=
      if exits0.length < entries.length then
        exits0 ++ List.replicate (entries.length - exits0.length)
          (dates.getLastD 0, pxs.getLastD 0, true)
      else exits0
    insortTrades ((List.zip entries exitsP).map fun q => mkTrade q.1 q.2)

/-- The final packaging of `run` (everything after the successful
`strategy_returns.index = index` assignment): equity curve, trade ledger
and metrics of `BacktestResult`. -/
structure BacktestResult where
  equity_curve : Series
  trades : List Trade
  total_return : ℚ
  annualized_return : ℝ
  max_drawdown : ℚ
  signals : Series
  daily_returns : Series
  volatility : ℝ
  sharpe : ℝ

instance : Inhabited BacktestResult :=
  ⟨{ equity_curve := { index := [], values := [] }
     trades := []
     total_return := 0
     annualized_return := 0
     max_drawdown := 0
     signals := { index := [], values := [] }
     daily_returns := { index := [], values := [] }
     volatility := 0
     sharpe := 0 }⟩

/-- The success path of `run` after the index assignments: `sorted` is the
sorted price table, `signals` the strategy's series after its in-place
index reassignment, `sr` the `strategy_returns` series (`sharpe` is the
source's `sharpe_ratio` field). -/
noncomputable def finishRun (c : ℚ) (sorted : PriceTable) (signals : Series)
    (sr : Series) : BacktestResult :=
  let equity : Series :=
    { index := sr.index
      values := (cumprodQ (sr.values.map fun r => 1 + r)).map fun x => x * c }
  { equity_curve := equity
    trades := build_trades (shiftFill signals) sorted
    total_return := equity.values.getLastD 0 / c - 1
    annualized_return := annualized_return sr.values
    max_drawdown := max_drawdown equity.values
    signals := signals
    daily_returns := sr
    volatility := annualized_volatility sr.values
    sharpe := sharpeOf sr.values (annualized_volatility sr.values) }

/-- `BacktestEngine.run(prices, strategy)` with `initial_capital = c`:
empty check, sort by `date` (KeyError when the column is missing), one
strategy invocation, length validation, in-place `signals.index`
reassignment, close-column read, execution-lag shift, the label-aligned
product `positions * returns`, and the `strategy_returns.index = index`
assignment that raises when the aligned length differs from `n`. -/
noncomputable def run (c : ℚ) (p : PriceTable) (strat : Strategy) :
    Except EngineError BacktestResult :=
  match p.rows with
  | [] => .error (.valueError "Price data is empty")
  | _ :: _ =>
    match p.hasDate with
    | false => .error (.keyError "date")
    | true =>
      let sorted := sortPrices p
      let signals0 := strat sorted
      if signals0.values.length = sorted.rows.length then
        let dates := sorted.rows.map Bar.date
        let signals : Series := { index := dates, values := signals0.values }
        match p.hasClose with
        | false => .error (.keyError "close")
        | true =>
          let returns : Series :=
            { index := sorted.index, values := pctChangeFill (sorted.rows.map Bar.close) }
          let positions := shiftFill signals
          (setIndex (mulAlign positions returns) dates).map fun sr =>
            finishRun c sorted signals sr
      else .error (.valueError "Signals length must match prices length")

/-- Project the trades of a successful run (empty ledger on an error). -/
def okTrades : Except EngineError BacktestResult → List Trade
  | .ok r => r.trades
  | .error _ => []

/-- Project the (possibly mutated) signal series of a successful run. -/
def okSignals : Except EngineError BacktestResult → Series
  | .ok r => r.signals
  | .error _ => { index := [], values := [] }

/-- Project the result of a successful run (`default` on an error). -/
noncomputable def okRes (e : Except EngineError BacktestResult) : BacktestResult :=
  match e with
  | .ok r => r
  | .error _ => default

/-! ### Concrete instances used as failing inputs, counterexamples and witnesses -/

/-- A strategy returning a fixed series, ignoring the price table. -/
def sigStrat (ix : List Int) (vs : List ℚ) : Strategy :=
  fun _ => { index := ix, values := vs }

/-- Two bars with integer dates 10 and 20 (any date labels other than
0..n-1, e.g. real timestamps, behave the same way). -/
def pCrash1 : PriceTable :=
  { index := [0, 1], hasDate := true, hasOpen := false, hasClose := true
    rows := [{ date := 10, open_ := 0, close := 100 }, { date := 20, open_ := 0, close := 110 }] }

/-- Two bars whose dates are the positional labels 0 and 1 (the only date
labels on which the aligned product stays positional). -/
def pOk1 : PriceTable :=
  { index := [0, 1], hasDate := true, hasOpen := false, hasClose := true
    rows := [{ date := 0, open_ := 0, close := 100 }, { date := 1, open_ := 0, close := 110 }] }

/-- Two bars with dates 100 and 200. -/
def pCrash2 : PriceTable :=
  { index := [0, 1], hasDate := true, hasOpen := false, hasClose := true
    rows := [{ date := 100, open_ := 0, close := 10 }, { date := 200, open_ := 0, close := 20 }] }

/-- Two bars, dates 0 and 1, closes 100 and 120. -/
def pOk2 : PriceTable :=
  { index := [0, 1], hasDate := true, hasOpen := false, hasClose := true
    rows := [{ date := 0, open_ := 0, close := 100 }, { date := 1, open_ := 0, close := 120 }] }

/-- Three bars with dates 10, 20, 30. -/
def pCrash3 : PriceTable :=
  { index := [0, 1, 2], hasDate := true, hasOpen := false, hasClose := true
    rows := [{ date := 10, open_ := 0, close := 100 }, { date := 20, open_ := 0, close := 90 },
             { date := 30, open_ := 0, close := 80 }] }

/-- Four bars on positional dates; with the short-then-flat-then-short
signal `[-1, 0, -1, 0]` the position series is `[0, -1, 0, -1]`, giving
one entry (bar 2) and two exits (bars 1 and 3). -/
def pTrunc3 : PriceTable :=
  { index := [0, 1, 2, 3], hasDate := true, hasOpen := false, hasClose := true
    rows := [{ date := 0, open_ := 0, close := 100 }, { date := 1, open_ := 0, close := 90 },
             { date := 2, open_ := 0, close := 80 }, { date := 3, open_ := 0, close := 70 }] }

/-- Three bars with dates 10, 20, 30 and a long-only signal (an
entries-exceed-exits scenario on timestamp-like dates). -/
def pCrash4 : PriceTable :=
  { index := [0, 1, 2], hasDate := true, hasOpen := false, hasClose := true
    rows := [{ date := 10, open_ := 0, close := 100 }, { date := 20, open_ := 0, close := 110 },
             { date := 30, open_ := 0, close := 120 }] }

/-- Four bars on positional dates with an `open` column; the increasing
signal `[1, 2, 3, 0]` yields positions `[0, 1, 2, 3]`, i.e. three entries
and no exits, so three open trades. -/
def pOpen4 : PriceTable :=
  { index := [0, 1, 2, 3], hasDate := true, hasOpen := true, hasClose := true
    rows := [{ date := 0, open_ := 99, close := 100 }, { date := 1, open_ := 109, close := 110 },
             { date := 2, open_ := 119, close := 120 }, { date := 3, open_ := 129, close := 130 }] }

/-- A one-bar table with a `close` column but no `date` column. -/
def pNoDate5 : PriceTable :=
  { index := [0], hasDate := false, hasOpen := true, hasClose := true
    rows := [{ date := 5, open_ := 99, close := 100 }] }

/-- Two bars with dates 7 and 9. -/
def pCrash6 : PriceTable :=
  { index := [0, 1], hasDate := true, hasOpen := false, hasClose := true
    rows := [{ date := 7, open_ := 0, close := 100 }, { date := 9, open_ := 0, close := 90 }] }

/-- Two bars on positional dates with a falling close (a strictly
decreasing equity curve under a long signal). -/
def pOk6 : PriceTable :=
  { index := [0, 1], hasDate := true, hasOpen := false, hasClose := true
    rows := [{ date := 0, open_ := 0, close := 100 }, { date := 1, open_ := 0, close := 90 }] }

/-- Two bars with dates 3 and 5. -/
def pCrash7 : PriceTable :=
  { index := [0, 1], hasDate := true, hasOpen := false, hasClose := true
    rows := [{ date := 0, open_ := 0, close := 100 }, { date := 5, open_ := 0, close := 110 }] }

/-- Two bars on positional dates (used with the all-flat signal, whose
strategy-return series is constantly 0). -/
def pOk7 : PriceTable :=
  { index := [0, 1], hasDate := true, hasOpen := false, hasClose := true
    rows := [{ date := 0, open_ := 0, close := 100 }, { date := 1, open_ := 0, close := 110 }] }

/-- Two bars on positional dates (the run succeeds, so the in-place
`signals.index` reassignment is observable on the result). -/
def pMut8 : PriceTable :=
  { index := [0, 1], hasDate := true, hasOpen := false, hasClose := true
    rows := [{ date := 0, open_ := 0, close := 100 }, { date := 1, open_ := 0, close := 110 }] }

/-- Three bars with distinct dates supplied out of order (dates 3, 1, 2 on
the caller's index 5, 6, 7). -/
def pSort9 : PriceTable :=
  { index := [5, 6, 7], hasDate := true, hasOpen := false, hasClose := true
    rows := [{ date := 3, open_ := 0, close := 30 }, { date := 1, open_ := 0, close := 10 },
             { date := 2, open_ := 0, close := 20 }] }

/-- A two-bar table with `close` present but no `date` column. -/
def pNoDate10 : PriceTable :=
  { index := [0, 1], hasDate := false, hasOpen := false, hasClose := true
    rows := [{ date := 0, open_ := 0, close := 100 }, { date := 1, open_ := 0, close := 110 }] }

/-- A one-bar table with a `date` column but no `close` column. -/
def pNoCloseW : PriceTable :=
  { index := [0], hasDate := true, hasOpen := true, hasClose := false
    rows := [{ date := 0, open_ := 99, close := 100 }] }

/-! ### Helper lemmas: lengths and pointwise access -/

theorem pctChangeFill_length (l : List ℚ) : (pctChangeFill l).length = l.length := by
  cases l with
  | nil => rfl
  | cons x rest => simp [pctChangeFill]

theorem shiftFill_values_length (s : Series) :
    (shiftFill s).values.length = s.values.length := by
  rcases s with ⟨ix, vs⟩
  cases vs with
  | nil => rfl
  | cons v vs' => simp [shiftFill]

theorem shiftFill_index (s : Series) : (shiftFill s).index = s.index := rfl

theorem zipWith_getD (f : ℚ → ℚ → ℚ) (a : List ℚ) :
    ∀ (b : List ℚ) (i : Nat), i < a.length → i < b.length →
      (List.zipWith f a b).getD i 0 = f (a.getD i 0) (b.getD i 0) := by
  induction a with
  | nil => intro b i h _; simp at h
  | cons x xs ih =>
    intro b i h1 h2
    cases b with
    | nil => simp at h2
    | cons y ys =>
      cases i with
      | zero => simp
      | succ j =>
        simp only [List.zipWith_cons_cons, List.getD_cons_succ]
        exact ih ys j (by simpa using h1) (by simpa using h2)

theorem dropLast_getD (l : List ℚ) : ∀ (i : Nat), i + 1 < l.length →
    l.dropLast.getD i 0 = l.getD i 0 := by
  induction l with
  | nil => intro i h; simp at h
  | cons x xs ih =>
    intro i h
    cases xs with
    | nil => simp at h
    | cons y ys =>
      cases i with
      | zero => simp [List.dropLast]
      | succ j =>
        simp only [List.dropLast, List.getD_cons_succ]
        exact ih j (by simpa using h)

theorem map_getD (f : ℚ → ℚ) (l : List ℚ) (i : Nat) (h : i < l.length) :
    (l.map f).getD i 0 = f (l.getD i 0) := by
  induction l generalizing i with
  | nil => simp at h
  | cons x xs ih =>
    cases i with
    | zero => simp
    | succ j => simpa using ih j (by simpa using h)

theorem cumprodGo_getD (l : List ℚ) : ∀ (a : ℚ) (i : Nat), i < l.length →
    (cumprodGo a l).getD i 0 = a * ((l.take (i + 1)).prod) := by
  induction l with
  | nil => intro a i h; simp at h
  | cons x xs ih =>
    intro a i h
    cases i with
    | zero => simp [cumprodGo]
    | succ j =>
      simp only [cumprodGo, List.getD_cons_succ, List.take_succ_cons, List.prod_cons]
      rw [ih (a * x) j (by simpa using h)]
      ring

/-! ### Helper lemmas: the outer-join label union -/

theorem unionMergeF_length_ge (fuel : Nat) :
    ∀ (l r : List Int), l.length ≤ (unionMergeF fuel l r).length := by
  induction fuel with
  | zero => intro l r; simp [unionMergeF]
  | succ n ih =>
    intro l r
    cases l with
    | nil => simp [unionMergeF]
    | cons a as =>
      cases r with
      | nil => simp [unionMergeF]
      | cons b bs =>
        by_cases hab : a < b
        · simpa [unionMergeF, hab] using ih as (b :: bs)
        · by_cases hba : b < a
          · have := ih (a :: as) bs
            simp only [unionMergeF, if_neg hab, if_pos hba, List.length_cons]
            simp only [List.length_cons] at this
            omega
          · simpa [unionMergeF, hab, hba] using ih as bs

theorem unionMergeF_length_eq (fuel : Nat) :
    ∀ (l r : List Int), (unionMergeF fuel l r).length = l.length → r.Sublist l := by
  induction fuel with
  | zero =>
    intro l r h
    simp only [unionMergeF, List.length_append] at h
    have : r.length = 0 := by omega
    simp only [List.length_eq_zero] at this
    simp [this]
  | succ n ih =>
    intro l r h
    cases l with
    | nil =>
      simp only [unionMergeF, List.length_nil] at h
      have : r = [] := by simpa [List.length_eq_zero] using h
      simp [this]
    | cons a as =>
      cases r with
      | nil => simp
      | cons b bs =>
        by_cases hab : a < b
        · simp only [unionMergeF, if_pos hab, List.length_cons] at h
          have hlen : (unionMergeF n as (b :: bs)).length = as.length := by omega
          exact (ih as (b :: bs) hlen).cons a
        · by_cases hba : b < a
          · simp only [unionMergeF, if_neg hab, if_pos hba, List.length_cons] at h
            have hge := unionMergeF_length_ge n (a :: as) bs
            simp only [List.length_cons] at hge
            omega
          · have hba' : a = b := le_antisymm (not_lt.mp hba) (not_lt.mp hab)
            simp only [unionMergeF, if_neg hab, if_neg hba, List.length_cons] at h
            have hlen : (unionMergeF n as bs).length = as.length := by omega
            subst hba'
            exact (ih as bs hlen).cons₂ a

theorem unionMerge_length_eq {l r : List Int} (h : (unionMerge l r).length = l.length) :
    r.Sublist l :=
  unionMergeF_length_eq (l.length + r.length) l r h

/-! ### Helper lemmas: the stable insertion sort -/

theorem insertByDate_perm (b : Bar) (l : List Bar) : (insertByDate b l).Perm (b :: l) := by
  induction l with
  | nil => rfl
  | cons c cs ih =>
    by_cases h : b.date < c.date
    · simp [insertByDate, h]
    · simp only [insertByDate, if_neg h]
      exact (ih.cons c).trans (List.Perm.swap b c cs)

theorem insortRows_fold_perm (l : List Bar) :
    ∀ acc : List Bar, (l.foldl (fun a b => insertByDate b a) acc).Perm (acc ++ l) := by
  induction l with
  | nil => intro acc; simp
  | cons x xs ih =>
    intro acc
    exact (ih (insertByDate x acc)).trans
      (((insertByDate_perm x acc).append_right xs).trans List.perm_middle.symm)

theorem insortRows_perm (l : List Bar) : (insortRows l).Perm l := by
  simpa using insortRows_fold_perm l []

theorem insertByDate_mem {x b : Bar} {l : List Bar} :
    x ∈ insertByDate b l ↔ x = b ∨ x ∈ l := by
  rw [(insertByDate_perm b l).mem_iff]
  simp

theorem insertByDate_pairwise {b : Bar} {l : List Bar}
    (h : l.Pairwise fun a b => a.date ≤ b.date) :
    (insertByDate b l).Pairwise fun a b => a.date ≤ b.date := by
  induction l with
  | nil => simp [insertByDate]
  | cons c cs ih =>
    rw [List.pairwise_cons] at h
    obtain ⟨hc, hcs⟩ := h
    by_cases hlt : b.date < c.date
    · simp only [insertByDate, if_pos hlt]
      refine List.Pairwise.cons ?_ (List.Pairwise.cons hc hcs)
      intro x hx
      rcases List.mem_cons.mp hx with hx | hx
      · subst hx; exact le_of_lt hlt
      · exact le_trans (le_of_lt hlt) (hc x hx)
    · simp only [insertByDate, if_neg hlt]
      refine List.Pairwise.cons ?_ (ih hcs)
      intro x hx
      rcases insertByDate_mem.mp hx with hx | hx
      · subst hx; exact not_lt.mp hlt
      · exact hc x hx

theorem insortRows_fold_pairwise (l : List Bar) :
    ∀ acc : List Bar, acc.Pairwise (fun a b => a.date ≤ b.date) →
      (l.foldl (fun a b => insertByDate b a) acc).Pairwise fun a b => a.date ≤ b.date := by
  induction l with
  | nil => intro acc h; simpa using h
  | cons x xs ih => intro acc h; exact ih (insertByDate x acc) (insertByDate_pairwise h)

theorem insortRows_pairwise (l : List Bar) :
    (insortRows l).Pairwise fun a b => a.date ≤ b.date :=
  insortRows_fold_pairwise l [] (by simp)

/-! ### Helper lemmas: `min`, running maximum and the drawdown series -/

theorem foldl_min_le_init (l : List ℚ) : ∀ a : ℚ, l.foldl min a ≤ a := by
  induction l with
  | nil => intro a; simp
  | cons x xs ih => intro a; exact le_trans (ih (min a x)) (min_le_left a x)

theorem foldl_min_le_mem (l : List ℚ) : ∀ (a y : ℚ), y ∈ l → l.foldl min a ≤ y := by
  induction l with
  | nil => intro a y h; simp at h
  | cons x xs ih =>
    intro a y h
    rcases List.mem_cons.mp h with h | h
    · subst h; exact le_trans (foldl_min_le_init xs (min a y)) (min_le_right a y)
    · exact ih (min a x) y h

theorem foldl_min_init_or_mem (l : List ℚ) : ∀ a : ℚ, l.foldl min a = a ∨ l.foldl min a ∈ l := by
  induction l with
  | nil => intro a; left; rfl
  | cons x xs ih =>
    intro a
    rcases ih (min a x) with h | h
    · rcases min_choice a x with hm | hm
      · left; simp only [List.foldl_cons]; rw [h, hm]
      · right; simp only [List.foldl_cons]; rw [h, hm]; exact List.mem_cons_self x xs
    · right; exact List.mem_cons_of_mem x h

theorem dd_go_le {m : ℚ} (hm : 0 < m) (xs : List ℚ) :
    ∀ d ∈ List.zipWith (fun a mm => a / mm - 1) xs (cummaxGo m xs), d ≤ 0 := by
  induction xs generalizing m with
  | nil => intro d h; simp [cummaxGo] at h
  | cons y ys ih =>
    intro d h
    simp only [cummaxGo, List.zipWith_cons_cons, List.mem_cons] at h
    rcases h with h | h
    · subst h
      have hpos : 0 < max m y := lt_of_lt_of_le hm (le_max_left m y)
      have : y / max m y ≤ 1 := (div_le_one hpos).mpr (le_max_right m y)
      linarith
    · exact ih (lt_of_lt_of_le hm (le_max_left m y)) d h

theorem dd_go_eq_zero_iff {m : ℚ} (hm : 0 < m) (xs : List ℚ) :
    (∀ d ∈ List.zipWith (fun a mm => a / mm - 1) xs (cummaxGo m xs), d = 0) ↔
      List.Chain (· ≤ ·) m xs := by
  induction xs generalizing m with
  | nil => simp [cummaxGo]
  | cons y ys ih =>
    have hpos : 0 < max m y := lt_of_lt_of_le hm (le_max_left m y)
    simp only [cummaxGo, List.zipWith_cons_cons, List.forall_mem_cons, List.chain_cons]
    constructor
    · rintro ⟨h0, htail⟩
      have hmy : m ≤ y := by
        have h1 : y / max m y = 1 := by linarith
        field_simp at h1
        exact h1
      have hy : y = max m y := (max_eq_right hmy).symm
      refine ⟨hmy, ?_⟩
      rw [hy.symm] at htail
      exact (ih (lt_of_lt_of_le hm hmy)).mp htail
    · rintro ⟨hmy, hchain⟩
      have hyy : max m y = y := max_eq_right hmy
      have hy0 : (0 : ℚ) < y := lt_of_lt_of_le hm hmy
      constructor
      · rw [hyy, div_self hy0.ne']
        ring
      · rw [hyy]
        exact (ih hy0).mpr hchain

/-- Sign and monotonicity characterisation of `_max_drawdown` on a curve
with positive first value. -/
theorem max_drawdown_spec (x : ℚ) (xs : List ℚ) (hx : 0 < x) :
    max_drawdown (x :: xs) ≤ 0 ∧
      (max_drawdown (x :: xs) = 0 ↔ List.Chain' (· ≤ ·) (x :: xs)) := by
  have hdd : ddOf (x :: xs) =
      (x / x - 1) :: List.zipWith (fun a mm => a / mm - 1) xs (cummaxGo x xs) := rfl
  have hx0 : x / x - 1 = 0 := by rw [div_self hx.ne']; ring
  have hmd : max_drawdown (x :: xs) =
      (List.zipWith (fun a mm => a / mm - 1) xs (cummaxGo x xs)).foldl min 0 := by
    simp only [max_drawdown, hdd, listMin, hx0]
  refine ⟨by rw [hmd]; exact foldl_min_le_init _ 0, ?_⟩
  rw [hmd]
  constructor
  · intro h
    have hall : ∀ d ∈ List.zipWith (fun a mm => a / mm - 1) xs (cummaxGo x xs), d = 0 :=
      fun d hd => le_antisymm (dd_go_le hx xs d hd) (h ▸ foldl_min_le_mem _ 0 d hd)
    exact (dd_go_eq_zero_iff hx xs).mp hall
  · intro h
    have hall : ∀ d ∈ List.zipWith (fun a mm => a / mm - 1) xs (cummaxGo x xs), d = 0 :=
      (dd_go_eq_zero_iff hx xs).mpr h
    rcases foldl_min_init_or_mem (List.zipWith (fun a mm => a / mm - 1) xs (cummaxGo x xs)) 0
      with h0 | h0
    · exact h0
    · exact hall _ h0

/-! ### Helper lemmas: mean and population variance -/

theorem sum_const_of_all_eq {l : List ℚ} {a : ℚ} (h : ∀ x ∈ l, x = a) :
    l.sum = l.length * a := by
  induction l with
  | nil => simp
  | cons x xs ih =>
    have hx := h x (List.mem_cons_self x xs)
    have hxs : ∀ y ∈ xs, y = a := fun y hy => h y (List.mem_cons_of_mem x hy)
    simp only [List.sum_cons, List.length_cons, ih hxs, hx]
    push_cast
    ring

theorem popVar_const {l : List ℚ} (h : ∀ x ∈ l, ∀ y ∈ l, x = y) : popVar l = 0 := by
  cases l with
  | nil => simp [popVar]
  | cons a as =>
    have hall : ∀ x ∈ a :: as, x = a := fun x hx => h x hx a (List.mem_cons_self a as)
    have hmean : meanQ (a :: as) = a := by
      rw [meanQ, sum_const_of_all_eq hall]
      have hn : (((a :: as).length : ℚ)) ≠ 0 := by
        simp only [List.length_cons]
        push_cast
        positivity
      field_simp
    have hz : ∀ y ∈ (a :: as).map (fun x => (x - meanQ (a :: as)) ^ 2), y = 0 := by
      intro y hy
      rcases List.mem_map.mp hy with ⟨x, hx, rfl⟩
      rw [hmean, hall x hx]
      ring
    rw [popVar, sum_const_of_all_eq hz]
    simp

/-! ### Helper lemmas: the control flow of `run` -/

theorem rangeList_length (n : Nat) : (rangeList n).length = n := by
  simp [rangeList]

theorem run_empty {c : ℚ} {s : Strategy} (p : PriceTable) (h : p.rows = []) :
    run c p s = .error (.valueError "Price data is empty") := by
  obtain ⟨ix, hd, ho, hc, rows⟩ := p
  have h' : rows = [] := h
  subst h'
  rfl

theorem run_no_date {c : ℚ} {s : Strategy} {p : PriceTable}
    (h1 : p.rows ≠ []) (h2 : p.hasDate = false) :
    run c p s = .error (.keyError "date") := by
  obtain ⟨ix, hd, ho, hc, rows⟩ := p
  have h2' : hd = false := h2
  subst h2'
  cases rows with
  | nil => exact absurd rfl h1
  | cons r rs => rfl

theorem run_len_mismatch {c : ℚ} {s : Strategy} {p : PriceTable}
    (h1 : p.rows ≠ []) (h2 : p.hasDate = true)
    (h3 : (s (sortPrices p)).values.length ≠ (sortPrices p).rows.length) :
    run c p s = .error (.valueError "Signals length must match prices length") := by
  obtain ⟨ix, hd, ho, hc, rows⟩ := p
  have h2' : hd = true := h2
  subst h2'
  cases rows with
  | nil => exact absurd rfl h1
  | cons r rs =>
    simp only [run]
    rw [if_neg h3]

theorem run_no_close {c : ℚ} {s : Strategy} {p : PriceTable}
    (h1 : p.rows ≠ []) (h2 : p.hasDate = true)
    (h3 : (s (sortPrices p)).values.length = (sortPrices p).rows.length)
    (h4 : p.hasClose = false) :
    run c p s = .error (.keyError "close") := by
  obtain ⟨ix, hd, ho, hc, rows⟩ := p
  have h2' : hd = true := h2
  subst h2'
  have h4' : hc = false := h4
  subst h4'
  cases rows with
  | nil => exact absurd rfl h1
  | cons r rs =>
    simp only [run]
    rw [if_pos h3]

theorem run_misaligned {c : ℚ} {s : Strategy} {p : PriceTable}
    (h1 : p.rows ≠ []) (h2 : p.hasDate = true)
    (h3 : (s (sortPrices p)).values.length = (sortPrices p).rows.length)
    (h4 : p.hasClose = true)
    (h5 : (sortPrices p).rows.map Bar.date ≠ rangeList (sortPrices p).rows.length) :
    run c p s = .error (.valueError "Length mismatch") := by
  obtain ⟨ix, hd, ho, hc, rows⟩ := p
  have h2' : hd = true := h2
  subst h2'
  have h4' : hc = true := h4
  subst h4'
  cases rows with
  | nil => exact absurd rfl h1
  | cons r rs =>
    simp only [run]
    rw [if_pos h3]
    rw [mulAlign]
    split
    · next heq => exact absurd heq h5
    · next hne =>
      rw [setIndex]
      split
      · next hlen =>
        exfalso
        rw [List.length_map] at hlen
        have hsub := unionMerge_length_eq hlen
        have heq := hsub.eq_of_length (by simp [sortPrices, shiftFill, rangeList])
        exact h5 heq.symm
      · next hlen => rfl

theorem run_ok_char {c : ℚ} {s : Strategy} {p : PriceTable}
    (h1 : p.rows ≠ []) (h2 : p.hasDate = true)
    (h3 : (s (sortPrices p)).values.length = (sortPrices p).rows.length)
    (h4 : p.hasClose = true)
    (h5 : (sortPrices p).rows.map Bar.date = rangeList (sortPrices p).rows.length) :
    run c p s = .ok (finishRun c (sortPrices p)
      { index := (sortPrices p).rows.map Bar.date, values := (s (sortPrices p)).values }
      { index := (sortPrices p).rows.map Bar.date
        values := List.zipWith (· * ·)
          (shiftFill { index := (sortPrices p).rows.map Bar.date
                       values := (s (sortPrices p)).values }).values
          (pctChangeFill ((sortPrices p).rows.map Bar.close)) }) := by
  obtain ⟨ix, hd, ho, hc, rows⟩ := p
  have h2' : hd = true := h2
  subst h2'
  have h4' : hc = true := h4
  subst h4'
  cases rows with
  | nil => exact absurd rfl h1
  | cons r rs =>
    simp only [run]
    rw [if_pos h3]
    rw [mulAlign]
    split
    · next heq =>
      rw [setIndex]
      split
      · next hlen => rfl
      · next hlen =>
        exfalso
        apply hlen
        simp [List.length_zipWith, shiftFill_values_length, pctChangeFill_length, h3]
    · next hne => exact absurd h5 hne

/-- Inversion of a successful `run`: all validations passed, the sorted
dates are exactly the positional labels `0..n-1`, and the result is the
positional computation. -/
theorem run_ok_inv {c : ℚ} {s : Strategy} {p : PriceTable} {res : BacktestResult}
    (h : run c p s = .ok res) :
    p.rows ≠ [] ∧ p.hasDate = true ∧ p.hasClose = true ∧
    (s (sortPrices p)).values.length = (sortPrices p).rows.length ∧
    (sortPrices p).rows.map Bar.date = rangeList (sortPrices p).rows.length ∧
    res = finishRun c (sortPrices p)
      { index := (sortPrices p).rows.map Bar.date, values := (s (sortPrices p)).values }
      { index := (sortPrices p).rows.map Bar.date
        values := List.zipWith (· * ·)
          (shiftFill { index := (sortPrices p).rows.map Bar.date
                       values := (s (sortPrices p)).values }).values
          (pctChangeFill ((sortPrices p).rows.map Bar.close)) } := by
  have h1 : p.rows ≠ [] := by
    intro he
    rw [run_empty p he] at h
    exact Except.noConfusion h
  have h2 : p.hasDate = true := by
    cases hd : p.hasDate with
    | false => rw [run_no_date h1 hd] at h; exact Except.noConfusion h
    | true => rfl
  have h3 : (s (sortPrices p)).values.length = (sortPrices p).rows.length := by
    by_cases hl : (s (sortPrices p)).values.length = (sortPrices p).rows.length
    · exact hl
    · rw [run_len_mismatch h1 h2 hl] at h; exact Except.noConfusion h
  have h4 : p.hasClose = true := by
    cases hc : p.hasClose with
    | false => rw [run_no_close h1 h2 h3 hc] at h; exact Except.noConfusion h
    | true => rfl
  have h5 : (sortPrices p).rows.map Bar.date = rangeList (sortPrices p).rows.length := by
    by_cases hal : (sortPrices p).rows.map Bar.date = rangeList (sortPrices p).rows.length
    · exact hal
    · rw [run_misaligned h1 h2 h3 h4 hal] at h; exact Except.noConfusion h
  rw [run_ok_char h1 h2 h3 h4 h5] at h
  exact ⟨h1, h2, h4, h3, h5, (Except.ok.inj h).symm⟩

theorem sortPrices_rows_length (p : PriceTable) : (sortPrices p).rows.length = p.rows.length :=
  (insortRows_perm p.rows).length_eq

theorem sortPrices_rows_ne_nil {p : PriceTable} (h : p.rows ≠ []) : (sortPrices p).rows ≠ [] := by
  intro he
  apply h
  have hl := sortPrices_rows_length p
  rw [he] at hl
  exact List.length_eq_zero.mp hl.symm

/-! ### The claims -/

/-- Claim C1: for every valid input, the returned `daily_returns` satisfy
`daily_returns[0] = 0` and `daily_returns[i] = signal[i-1] *
(close[i]/close[i-1] - 1)` for `i > 0` (the one-bar execution lag).  The
code violates this on valid inputs whose date labels are not `0..n-1`
(e.g. `pCrash1`, and the repository's own timestamp-dated test fixture):
`run` raises pandas' index-length `ValueError` instead of returning,
because `positions` is date-indexed while `returns` is positionally
indexed and their product aligns by label.  Whenever `run` does return,
the claimed formula holds (second conjunct). -/
theorem claim1_daily_returns :
    (run 10000 pCrash1 (sigStrat [0, 1] [1, 1]) = .error (.valueError "Length mismatch")) ∧
    (∀ (c : ℚ) (p : PriceTable) (s : Strategy) (res : BacktestResult),
      run c p s = .ok res →
      res.daily_returns.values.length = (sortPrices p).rows.length ∧
      ∀ i, i < res.daily_returns.values.length →
        res.daily_returns.values.getD i 0 =
          if i = 0 then 0
          else ((s (sortPrices p)).values.getD (i - 1) 0) *
            (((sortPrices p).rows.map Bar.close).getD i 0 /
              ((sortPrices p).rows.map Bar.close).getD (i - 1) 0 - 1)) := by
  constructor
  · rfl
  · intro c p s res h
    obtain ⟨h1, h2, h4, h3, h5, hres⟩ := run_ok_inv h
    have hdr : res.daily_returns.values =
        List.zipWith (· * ·)
          (shiftFill { index := (sortPrices p).rows.map Bar.date
                       values := (s (sortPrices p)).values }).values
          (pctChangeFill ((sortPrices p).rows.map Bar.close)) := by
      rw [hres]
      rfl
    have hn : 0 < (sortPrices p).rows.length := by
      rw [sortPrices_rows_length]
      exact List.length_pos.mpr h1
    have hsvne : (s (sortPrices p)).values ≠ [] := by
      apply List.ne_nil_of_length_pos
      rw [h3]
      exact hn
    have hclsne : (sortPrices p).rows.map Bar.close ≠ [] := by
      apply List.ne_nil_of_length_pos
      rw [List.length_map]
      exact hn
    obtain ⟨a, as, hsv⟩ := List.exists_cons_of_ne_nil hsvne
    obtain ⟨z, zs, hcls⟩ := List.exists_cons_of_ne_nil hclsne
    have hsf : (shiftFill (Series.mk ((sortPrices p).rows.map Bar.date)
        ((s (sortPrices p)).values))).values =
        0 :: ((s (sortPrices p)).values).dropLast := by
      rw [shiftFill, hsv]
    have hpc : pctChangeFill ((sortPrices p).rows.map Bar.close) =
        0 :: List.zipWith (fun prev cur => cur / prev - 1)
          ((sortPrices p).rows.map Bar.close) zs := by
      rw [hcls, pctChangeFill]
    have hlsv : (s (sortPrices p)).values.length = (sortPrices p).rows.length := h3
    have hlcls : ((sortPrices p).rows.map Bar.close).length = (sortPrices p).rows.length :=
      List.length_map _ _
    have hlzs : zs.length + 1 = (sortPrices p).rows.length := by
      rw [← hlcls, hcls]; rfl
    have hlen : res.daily_returns.values.length = (sortPrices p).rows.length := by
      rw [hdr, List.length_zipWith, hsf, hpc]
      simp only [List.length_cons, List.length_dropLast, List.length_zipWith, hlsv, hlcls]
      omega
    refine ⟨hlen, ?_⟩
    intro i hi
    rw [hlen] at hi
    rw [hdr, hsf, hpc]
    cases i with
    | zero =>
      simp
    | succ j =>
      have hj : j + 1 < (sortPrices p).rows.length := hi
      simp only [List.zipWith_cons_cons, List.getD_cons_succ, if_neg (Nat.succ_ne_zero j),
        Nat.add_sub_cancel]
      rw [zipWith_getD]
      · rw [dropLast_getD]
        · rw [zipWith_getD]
          · rw [hcls, List.getD_cons_succ]
          · omega
          · omega
        · omega
      · rw [List.length_dropLast]; omega
      · rw [List.length_zipWith]; omega

/-- Witness for C1: the lag formula evaluated at bar 1 of a two-bar run on
positional date labels. -/
theorem claim1_witness :
    (okRes (run 10000 pOk1 (sigStrat [0, 1] [1, 1]))).daily_returns.values.getD 1 0 =
      if 1 = 0 then 0
      else ((sigStrat [0, 1] [1, 1] (sortPrices pOk1)).values.getD 0 0) *
        (((sortPrices pOk1).rows.map Bar.close).getD 1 0 /
          ((sortPrices pOk1).rows.map Bar.close).getD 0 0 - 1) :=
  ((claim1_daily_returns.2 10000 pOk1 (sigStrat [0, 1] [1, 1])
    (okRes (run 10000 pOk1 (sigStrat [0, 1] [1, 1]))) rfl).2) 1 (by decide)

theorem cumprodGo_length (l : List ℚ) : ∀ a : ℚ, (cumprodGo a l).length = l.length := by
  induction l with
  | nil => intro a; rfl
  | cons x xs ih => intro a; simp [cumprodGo, ih]

/-- Claim C2: the returned equity curve compounds `initial_capital` through
`(1 + daily_returns)` and `total_return` is exactly
`equity_curve[-1]/initial_capital - 1`.  As with C1 the code violates the
universally quantified form: on valid inputs whose sorted date labels are
not `0..n-1` (`pCrash2`) `run` raises a `ValueError` instead of returning.
Whenever `run` does return, the claimed identities hold exactly (second
conjunct, over exact rational arithmetic). -/
theorem claim2_equity_compounding :
    (run 5000 pCrash2 (sigStrat [0, 1] [1, 0]) = .error (.valueError "Length mismatch")) ∧
    (∀ (c : ℚ) (p : PriceTable) (s : Strategy) (res : BacktestResult),
      run c p s = .ok res →
      (∀ i, i < res.equity_curve.values.length →
        res.equity_curve.values.getD i 0 =
          c * ((res.daily_returns.values.take (i + 1)).map fun r => 1 + r).prod) ∧
      res.total_return = res.equity_curve.values.getLastD 0 / c - 1) := by
  constructor
  · rfl
  · intro c p s res h
    obtain ⟨h1, h2, h4, h3, h5, hres⟩ := run_ok_inv h
    have heq : res.equity_curve.values =
        (cumprodQ (res.daily_returns.values.map fun r => 1 + r)).map fun x => x * c := by
      rw [hres]
      rfl
    constructor
    · intro i hi
      rw [heq] at hi
      rw [List.length_map, cumprodQ, cumprodGo_length] at hi
      rw [heq, map_getD _ _ _ (by rw [cumprodQ, cumprodGo_length]; exact hi),
        cumprodQ, cumprodGo_getD _ _ _ hi]
      rw [← List.map_take]
      ring
    · rw [hres]
      rfl

/-- Witness for C2: the compounding identity evaluated at bar 1 and the
total-return reconciliation, on a two-bar run. -/
theorem claim2_witness :
    ((okRes (run 10000 pOk2 (sigStrat [0, 1] [1, 1]))).equity_curve.values.getD 1 0 =
      10000 * (((okRes (run 10000 pOk2 (sigStrat [0, 1] [1, 1]))).daily_returns.values.take
        (1 + 1)).map fun r => 1 + r).prod) ∧
    (okRes (run 10000 pOk2 (sigStrat [0, 1] [1, 1]))).total_return =
      (okRes (run 10000 pOk2 (sigStrat [0, 1] [1, 1]))).equity_curve.values.getLastD 0 /
        10000 - 1 :=
  have hrun := claim2_equity_compounding.2 10000 pOk2 (sigStrat [0, 1] [1, 1])
    (okRes (run 10000 pOk2 (sigStrat [0, 1] [1, 1]))) rfl
  ⟨hrun.1 1 (by decide), hrun.2⟩

theorem rangeList_four : rangeList 4 = [0, 1, 2, 3] := rfl

/-- Claim C3: entry events at bars with positive position change, exit
events at bars with negative position change, reference price `open` when
present else `close`.  Two violations.  (i) On valid inputs with
non-positional date labels (`pCrash3`) `run` raises before any ledger is
built (first conjunct).  (ii) Even on the working label domain, exits are
only paired positionally with entries and `trades.join(exit_frame)` drops
excess exits: with positions `[0, -1, 0, -1]` (second conjunct, computed
from signal `[-1, 0, -1, 0]`), position changes are `[0, -1, 1, -1]` —
one entry (bar 2) and two exits (bars 1 and 3) — yet the ledger holds a
single trade pairing entry bar 2 with exit bar 1; the bar-3 exit event is
absent. -/
theorem claim3_trade_events :
    (run 10000 pCrash3 (sigStrat [0, 1, 2] [1, 1, 1]) =
      .error (.valueError "Length mismatch")) ∧
    pcList [0, -1, 0, -1] = [0, -1, 1, -1] ∧
    okTrades (run 10000 pTrunc3 (sigStrat [0, 1, 2, 3] [-1, 0, -1, 0])) =
      [{ entry_date := 2, entry_price := 80, exit_date := 1, exit_price := 90,
         return_pct := 1/8, holding_period := -1, status := .CLOSED }] := by
  refine ⟨rfl, ?_, ?_⟩
  · norm_num [pcList]
  · norm_num [run, okTrades, pTrunc3, sigStrat, sortPrices, insortRows, insertByDate,
      pctChangeFill, shiftFill, mulAlign, unionMerge, unionMergeF, lookupVal, setIndex,
      finishRun, cumprodQ, cumprodGo, build_trades, pcList, selectEvents, mkTrade, priceOf,
      insortTrades, insertTrade, rangeList_four, List.zipWith, List.dropLast, List.zip,
      List.zipWith_cons_cons, List.filterMap, Except.map]

/-- Claim C4: when entries outnumber exits, the excess trailing entries
become OPEN trades, all sharing the final bar's synthesized exit date and
preferred price, with `return_pct`/`holding_period` computed from those
synthesized values; all other trades are CLOSED.  First conjunct: on
valid inputs with non-positional date labels (`pCrash4`, an
entries-exceed-exits scenario) `run` raises before any ledger exists, so
the universally quantified claim fails.  Second conjunct: on the working
label domain the described behaviour holds — positions `[0, 1, 2, 3]`
give three entries and no exits, and the ledger has exactly three OPEN
trades, every one carrying the final bar's date 3 and `open` price 129
(the preferred column), with mark-to-market `return_pct` and
`holding_period`, and no CLOSED trade. -/
theorem claim4_open_trades :
    (run 10000 pCrash4 (sigStrat [0, 1, 2] [1, 1, 1]) =
      .error (.valueError "Length mismatch")) ∧
    okTrades (run 10000 pOpen4 (sigStrat [0, 1, 2, 3] [1, 2, 3, 0])) =
      [{ entry_date := 1, entry_price := 109, exit_date := 3, exit_price := 129,
         return_pct := 20/109, holding_period := 2, status := .OPEN },
       { entry_date := 2, entry_price := 119, exit_date := 3, exit_price := 129,
         return_pct := 10/119, holding_period := 1, status := .OPEN },
       { entry_date := 3, entry_price := 129, exit_date := 3, exit_price := 129,
         return_pct := 0, holding_period := 0, status := .OPEN }] := by
  refine ⟨rfl, ?_⟩
  norm_num [run, okTrades, pOpen4, sigStrat, sortPrices, insortRows, insertByDate,
    pctChangeFill, shiftFill, mulAlign, unionMerge, unionMergeF, lookupVal, setIndex,
    finishRun, cumprodQ, cumprodGo, build_trades, pcList, selectEvents, mkTrade, priceOf,
    insortTrades, insertTrade, rangeList_four, List.zipWith, List.dropLast, List.zip,
    List.zipWith_cons_cons, List.filterMap, List.getLastD, Except.map]

/-- Claim C5 counterexample: a non-empty table with a `close` column and a
length-matching strategy — none of the claim's three failure conditions —
on which `run` still fails, and with a `KeyError`, not the validation
`ValueError`: the `date` column is missing and `sort_values("date")`
raises first.  This refutes "fails with InvalidInputError exactly when
..." as stated. -/
theorem claim5_counterexample :
    pNoDate5.rows.length = 1 ∧
    pNoDate5.hasClose = true ∧
    (sigStrat [0] [0] (sortPrices pNoDate5)).values.length = pNoDate5.rows.length ∧
    run 10000 pNoDate5 (sigStrat [0] [0]) = .error (.keyError "date") :=
  ⟨rfl, rfl, rfl, rfl⟩

/-- Claim C5 (amended): the engine's own `ValueError`s occur exactly on an
empty table and on a signal length mismatch (in that order, the mismatch
checked after the strategy call); a missing `date` column raises a
`KeyError` at the initial sort, before the strategy is invoked; a missing
`close` column raises a `KeyError` after validation, when returns are
computed; and even with all columns present and lengths matching, `run`
only returns when the sorted date labels are exactly `0..n-1` — otherwise
the `strategy_returns.index` assignment raises a `ValueError` after all
validation passed. -/
theorem claim5_amended (c : ℚ) (p : PriceTable) (s : Strategy) :
    (p.rows = [] → run c p s = .error (.valueError "Price data is empty")) ∧
    (p.rows ≠ [] → p.hasDate = false → run c p s = .error (.keyError "date")) ∧
    (p.rows ≠ [] → p.hasDate = true →
      (s (sortPrices p)).values.length ≠ (sortPrices p).rows.length →
      run c p s = .error (.valueError "Signals length must match prices length")) ∧
    (p.rows ≠ [] → p.hasDate = true →
      (s (sortPrices p)).values.length = (sortPrices p).rows.length →
      p.hasClose = false → run c p s = .error (.keyError "close")) ∧
    (p.rows ≠ [] → p.hasDate = true →
      (s (sortPrices p)).values.length = (sortPrices p).rows.length →
      p.hasClose = true →
      (sortPrices p).rows.map Bar.date ≠ rangeList (sortPrices p).rows.length →
      run c p s = .error (.valueError "Length mismatch")) ∧
    (p.rows ≠ [] → p.hasDate = true →
      (s (sortPrices p)).values.length = (sortPrices p).rows.length →
      p.hasClose = true →
      (sortPrices p).rows.map Bar.date = rangeList (sortPrices p).rows.length →
      ∃ r, run c p s = .ok r) :=
  ⟨run_empty p,
   fun h1 h2 => run_no_date h1 h2,
   fun h1 h2 h3 => run_len_mismatch h1 h2 h3,
   fun h1 h2 h3 h4 => run_no_close h1 h2 h3 h4,
   fun h1 h2 h3 h4 h5 => run_misaligned h1 h2 h3 h4 h5,
   fun h1 h2 h3 h4 h5 => ⟨_, run_ok_char h1 h2 h3 h4 h5⟩⟩

/-- Witness for the amended C5: the missing-`close` branch evaluated on a
concrete one-bar table. -/
theorem claim5_witness :
    run 10000 pNoCloseW (sigStrat [0] [0]) = .error (.keyError "close") :=
  (claim5_amended 10000 pNoCloseW (sigStrat [0] [0])).2.2.2.1
    (by decide) rfl rfl rfl

/-- Claim C8 counterexample: `run` reassigns the index of the series the
strategy returned (`signals.index = prices["date"]` mutates it in place);
the object the engine received — the strategy's series with index
`[7, 8]` — ends the run with index `[0, 1]`, refuting "both objects are
unchanged". -/
theorem claim8_counterexample :
    (okSignals (run 10000 pMut8 (sigStrat [7, 8] [1, 1]))).index = [0, 1] ∧
    (sigStrat [7, 8] [1, 1] (sortPrices pMut8)).index = [7, 8] ∧
    (okSignals (run 10000 pMut8 (sigStrat [7, 8] [1, 1]))).index ≠
      (sigStrat [7, 8] [1, 1] (sortPrices pMut8)).index :=
  ⟨rfl, rfl, by decide⟩

/-- Claim C8 (amended): on every successful run the signal series keeps
its values but has its index reassigned in place to the sorted `date`
column; the caller's price table itself is never written to (the engine
only ever derives new frames from it via `sort_values` / `reset_index` /
`copy`). -/
theorem claim8_amended (c : ℚ) (p : PriceTable) (s : Strategy) (res : BacktestResult)
    (h : run c p s = .ok res) :
    res.signals.values = (s (sortPrices p)).values ∧
    res.signals.index = (sortPrices p).rows.map Bar.date := by
  obtain ⟨h1, h2, h4, h3, h5, hres⟩ := run_ok_inv h
  constructor
  · rw [hres]
    rfl
  · rw [hres]
    rfl

/-- Witness for the amended C8: values preserved and index reassigned on a
concrete run. -/
theorem claim8_witness :
    (okRes (run 10000 pMut8 (sigStrat [7, 8] [1, 1]))).signals.values =
      (sigStrat [7, 8] [1, 1] (sortPrices pMut8)).values ∧
    (okRes (run 10000 pMut8 (sigStrat [7, 8] [1, 1]))).signals.index =
      (sortPrices pMut8).rows.map Bar.date :=
  claim8_amended 10000 pMut8 (sigStrat [7, 8] [1, 1])
    (okRes (run 10000 pMut8 (sigStrat [7, 8] [1, 1]))) rfl

/-- Claim C10: a non-empty price table without a `date` column makes `run`
raise a key-lookup error at the initial `sort_values("date")`, for every
strategy and capital — in particular before the strategy is ever invoked
and even when `close` is present — so `date` is effectively required. -/
theorem claim10_missing_date (c : ℚ) (p : PriceTable) (s : Strategy)
    (h1 : p.rows ≠ []) (h2 : p.hasDate = false) :
    run c p s = .error (.keyError "date") :=
  run_no_date h1 h2

/-- Witness for C10: the missing-`date` failure on a concrete two-bar
table with `close` present. -/
theorem claim10_witness :
    run 10000 pNoDate10 (sigStrat [0, 1] [0, 0]) = .error (.keyError "date") :=
  claim10_missing_date 10000 pNoDate10 (sigStrat [0, 1] [0, 0]) (by decide) rfl

theorem rangeList_two : rangeList 2 = [0, 1] := rfl

/-- Claim C6: `max_drawdown` is the minimum of
`equity/running_max(equity) - 1`, is always nonpositive, and vanishes
exactly on a non-decreasing equity curve.  First conjunct: on valid
inputs with non-positional date labels (`pCrash6`) `run` raises a
`ValueError` before any drawdown is computed, so the universally
quantified claim fails on the code.  Second conjunct: whenever `run`
returns (and the engine is configured with a positive initial capital),
all three claimed properties hold. -/
theorem claim6_max_drawdown :
    (run 10000 pCrash6 (sigStrat [0, 1] [1, 1]) = .error (.valueError "Length mismatch")) ∧
    (∀ (c : ℚ) (p : PriceTable) (s : Strategy) (res : BacktestResult), 0 < c →
      run c p s = .ok res →
      res.max_drawdown = listMin (ddOf res.equity_curve.values) ∧
      res.max_drawdown ≤ 0 ∧
      (res.max_drawdown = 0 ↔ List.Chain' (· ≤ ·) res.equity_curve.values)) := by
  constructor
  · rfl
  · intro c p s res hc h
    obtain ⟨h1, h2, h4, h3, h5, hres⟩ := run_ok_inv h
    have hn : 0 < (sortPrices p).rows.length := by
      rw [sortPrices_rows_length]
      exact List.length_pos.mpr h1
    have hsvne : (s (sortPrices p)).values ≠ [] := by
      apply List.ne_nil_of_length_pos
      rw [h3]
      exact hn
    have hclsne : (sortPrices p).rows.map Bar.close ≠ [] := by
      apply List.ne_nil_of_length_pos
      rw [List.length_map]
      exact hn
    obtain ⟨a, as, hsv⟩ := List.exists_cons_of_ne_nil hsvne
    obtain ⟨z, zs, hcls⟩ := List.exists_cons_of_ne_nil hclsne
    have hsf : (shiftFill (Series.mk ((sortPrices p).rows.map Bar.date)
        ((s (sortPrices p)).values))).values =
        0 :: ((s (sortPrices p)).values).dropLast := by
      rw [shiftFill, hsv]
    have hpc : pctChangeFill ((sortPrices p).rows.map Bar.close) =
        0 :: List.zipWith (fun prev cur => cur / prev - 1)
          ((sortPrices p).rows.map Bar.close) zs := by
      rw [hcls, pctChangeFill]
    have hdr : res.daily_returns.values =
        List.zipWith (· * ·) (0 :: ((s (sortPrices p)).values).dropLast)
          (0 :: List.zipWith (fun prev cur => cur / prev - 1)
            ((sortPrices p).rows.map Bar.close) zs) := by
      rw [hres]
      show List.zipWith (· * ·)
        (shiftFill (Series.mk ((sortPrices p).rows.map Bar.date)
          ((s (sortPrices p)).values))).values
        (pctChangeFill ((sortPrices p).rows.map Bar.close)) = _
      rw [hsf, hpc]
    have hev0 : res.equity_curve.values =
        (cumprodQ (res.daily_returns.values.map fun r => 1 + r)).map fun x => x * c := by
      rw [hres]
      rfl
    have hev : res.equity_curve.values =
        1 * (1 + 0 * 0) * c ::
          (cumprodGo (1 * (1 + 0 * 0))
            ((List.zipWith (· * ·) ((s (sortPrices p)).values.dropLast)
              (List.zipWith (fun prev cur => cur / prev - 1)
                ((sortPrices p).rows.map Bar.close) zs)).map fun r => 1 + r)).map
            (fun x => x * c) := by
      rw [hev0, hdr, List.zipWith_cons_cons, List.map_cons, cumprodQ, cumprodGo, List.map_cons]
    have hmd : res.max_drawdown = max_drawdown res.equity_curve.values := by
      rw [hres]
      rfl
    have hx : (0 : ℚ) < 1 * (1 + 0 * 0) * c := by simpa using hc
    refine ⟨by rw [hmd, max_drawdown], ?_, ?_⟩
    · rw [hmd, hev]
      exact (max_drawdown_spec _ _ hx).1
    · rw [hmd, hev]
      exact (max_drawdown_spec _ _ hx).2

/-- Witness for C6: all three drawdown properties on a concrete two-bar
run with a strictly falling equity curve. -/
theorem claim6_witness :
    (okRes (run 10000 pOk6 (sigStrat [0, 1] [1, 1]))).max_drawdown =
      listMin (ddOf (okRes (run 10000 pOk6 (sigStrat [0, 1] [1, 1]))).equity_curve.values) ∧
    (okRes (run 10000 pOk6 (sigStrat [0, 1] [1, 1]))).max_drawdown ≤ 0 ∧
    ((okRes (run 10000 pOk6 (sigStrat [0, 1] [1, 1]))).max_drawdown = 0 ↔
      List.Chain' (· ≤ ·) (okRes (run 10000 pOk6 (sigStrat [0, 1] [1, 1]))).equity_curve.values) :=
  claim6_max_drawdown.2 10000 pOk6 (sigStrat [0, 1] [1, 1])
    (okRes (run 10000 pOk6 (sigStrat [0, 1] [1, 1]))) (by norm_num) rfl

/-- Claim C7: volatility is the population standard deviation (denominator
`n`) scaled by `sqrt 252` (0 for an empty or zero-variance series), and
the Sharpe ratio is `mean * 252 / volatility`, floored to 0 when the
series is empty or the volatility vanishes — in particular 0 for every
constant return series — with no division-by-zero error.  First conjunct:
on valid inputs with non-positional date labels (`pCrash7`) `run` raises
a `ValueError` before any metric is computed, so the universally
quantified claim fails on the code.  The remaining conjuncts: the
empty-series flooring of `_annualized_volatility`, and, whenever `run`
returns, the claimed volatility identity, the Sharpe flooring rule, and
the zero-variance bound. -/
theorem claim7_metrics :
    (run 10000 pCrash7 (sigStrat [0, 1] [1, 0]) = .error (.valueError "Length mismatch")) ∧
    annualized_volatility [] = 0 ∧
    (∀ (c : ℚ) (p : PriceTable) (s : Strategy) (res : BacktestResult),
      run c p s = .ok res →
      (res.volatility =
        Real.sqrt ((popVar res.daily_returns.values : ℚ) : ℝ) * Real.sqrt 252) ∧
      (res.sharpe = if res.volatility = 0 then 0
        else ((meanQ res.daily_returns.values : ℚ) : ℝ) * 252 / res.volatility) ∧
      ((∀ x ∈ res.daily_returns.values, ∀ y ∈ res.daily_returns.values, x = y) →
        res.sharpe = 0)) := by
  refine ⟨rfl, by simp [annualized_volatility], ?_⟩
  intro c p s res h
  obtain ⟨h1, h2, h4, h3, h5, hres⟩ := run_ok_inv h
  have hn : 0 < (sortPrices p).rows.length := by
    rw [sortPrices_rows_length]
    exact List.length_pos.mpr h1
  have hdrv : res.daily_returns.values =
      List.zipWith (· * ·)
        (shiftFill (Series.mk ((sortPrices p).rows.map Bar.date)
          ((s (sortPrices p)).values))).values
        (pctChangeFill ((sortPrices p).rows.map Bar.close)) := by
    rw [hres]
    rfl
  have hlen : res.daily_returns.values.length = (sortPrices p).rows.length := by
    rw [hdrv, List.length_zipWith, shiftFill_values_length]
    show min (s (sortPrices p)).values.length _ = _
    rw [h3, pctChangeFill_length, List.length_map, min_self]
  have hne : res.daily_returns.values.length ≠ 0 := by
    rw [hlen]
    omega
  have hvol : res.volatility = annualized_volatility res.daily_returns.values := by
    rw [hres]
    rfl
  have hsh : res.sharpe =
      sharpeOf res.daily_returns.values (annualized_volatility res.daily_returns.values) := by
    rw [hres]
    rfl
  refine ⟨?_, ?_, ?_⟩
  · rw [hvol, annualized_volatility, if_neg hne]
    by_cases hz : Real.sqrt ((popVar res.daily_returns.values : ℚ) : ℝ) = 0
    · rw [if_pos hz, hz, zero_mul]
    · rw [if_neg hz]
  · rw [hsh, sharpeOf, hvol]
    simp only [hne, false_or]
  · intro hconst
    have hpv : popVar res.daily_returns.values = 0 := popVar_const hconst
    have hvz : annualized_volatility res.daily_returns.values = 0 := by
      rw [annualized_volatility, if_neg hne, hpv]
      simp
    rw [hsh, sharpeOf, hvz]
    simp

/-- Witness for C7: the flat strategy produces a constant (all-zero)
strategy-return series, and the returned Sharpe ratio is 0. -/
theorem claim7_witness :
    (okRes (run 10000 pOk7 (sigStrat [0, 1] [0, 0]))).sharpe = 0 :=
  (claim7_metrics.2.2 10000 pOk7 (sigStrat [0, 1] [0, 0])
    (okRes (run 10000 pOk7 (sigStrat [0, 1] [0, 0]))) rfl).2.2
    (by
      have hv : (okRes (run 10000 pOk7 (sigStrat [0, 1] [0, 0]))).daily_returns.values =
          [0, 0] := by
        norm_num [run, okRes, pOk7, sigStrat, sortPrices, insortRows, insertByDate,
          pctChangeFill, shiftFill, mulAlign, unionMerge, unionMergeF, lookupVal, setIndex,
          finishRun, cumprodQ, cumprodGo, rangeList_two, List.zipWith, List.dropLast,
          Except.map]
      intro x hx y hy
      rw [hv] at hx hy
      simp only [List.mem_cons, List.mem_singleton, List.not_mem_nil, or_false] at hx hy
      rcases hx with hx | hx <;> rcases hy with hy | hy <;> rw [hx, hy])

/-- Claim C9: `run` first sorts the table by `date` ascending and
reindexes to the dense 0-based axis before anything else (`sortPrices` is
the first step of `run` after the emptiness check).  On the spec's valid
domain the dates are unique, so the sorted row order is the unique
date-ascending order — established here as "permutation of the input rows
+ sorted by date" — the new index is `range(n)`, and the stability clause
(rows with equal dates keep their relative order) holds vacuously because
equal dates contradict uniqueness. -/
theorem claim9_sort (p : PriceTable)
    (huniq : p.rows.Pairwise fun a b => a.date ≠ b.date) :
    ((sortPrices p).rows.Perm p.rows ∧
     (sortPrices p).rows.Pairwise (fun a b => a.date ≤ b.date) ∧
     (sortPrices p).index = rangeList (sortPrices p).rows.length) ∧
    (∀ (i j : Nat) (hi : i < p.rows.length) (hj : j < p.rows.length), i < j →
      (p.rows.get ⟨i, hi⟩).date = (p.rows.get ⟨j, hj⟩).date →
      ∃ (i' j' : Nat) (hi' : i' < (sortPrices p).rows.length)
        (hj' : j' < (sortPrices p).rows.length),
        i' < j' ∧ (sortPrices p).rows.get ⟨i', hi'⟩ = p.rows.get ⟨i, hi⟩ ∧
          (sortPrices p).rows.get ⟨j', hj'⟩ = p.rows.get ⟨j, hj⟩) := by
  refine ⟨⟨insortRows_perm p.rows, insortRows_pairwise p.rows, rfl⟩, ?_⟩
  intro i j hi hj hij hdate
  exact absurd hdate
    ((List.pairwise_iff_get.mp huniq) ⟨i, hi⟩ ⟨j, hj⟩ (Fin.mk_lt_mk.mpr hij))

/-- Witness for C9: the sort applied to a concrete three-bar table whose
rows arrive out of order with distinct dates. -/
theorem claim9_witness :
    (sortPrices pSort9).rows.Perm pSort9.rows ∧
    (sortPrices pSort9).rows.Pairwise (fun a b => a.date ≤ b.date) ∧
    (sortPrices pSort9).index = rangeList (sortPrices pSort9).rows.length :=
  (claim9_sort pSort9 (by decide)).1

end Backtest
